import Mathlib

/-!
Shallow embedding of the core RAG engine of the elden-ring-wiki-RAG
repository, together with proofs of the specification's claims about it.

The embedded code:
* `scripts/query_rag.py` — class `EldenRingRAG`: `retrieve_relevant_chunks`,
  `format_context`, `format_history`, `answer_question`, the prompt template
  and the fallback answer constant.
* `scripts/chunk_data.py` — class `EldenRingDataLoader`: `split_into_chunks`
  together with the splitter configuration (`chunk_size = 1000`,
  `chunk_overlap = 200`).

External services (the sentence-transformer embedder, the Pinecone index and
the Gemini language model) are modelled as function parameters returning
`Except ε _`, so that a raised exception of the Python code corresponds to an
`Except.error` value. Python float similarity scores are modelled as `Rat`
(no claim performs arithmetic on scores; they are only copied and compared).
In-place mutation of the caller's `history` list is modelled by returning,
next to the function result, the caller-visible history binding after the
call (`Option (List Turn)`): on an exception the original object is
untouched, so the input option is returned unchanged.
-/

namespace EldenRing

/-- A conversation turn as stored by `answer_question`:
a Python dict with keys `user` and `assistant`. -/
structure Turn where
  user : String
  assistant : String
deriving DecidableEq, Repr

/-- The metadata stored with each Pinecone match, as read by
`retrieve_relevant_chunks` (keys `text`, `title`, `url`; written by
`index_data.py`, which also stores `chunk_index`, `total_chunks`, `source` —
those are never read back by the query chain, so they are omitted here). -/
structure MatchMeta where
  text : String
  title : String
  url : String
deriving DecidableEq, Repr

/-- One match of a Pinecone `index.query` response: a `score` and metadata. -/
structure IndexMatch where
  score : Rat
  metadata : MatchMeta
deriving DecidableEq, Repr

/-- A retrieved chunk as built by `retrieve_relevant_chunks`
(the dict with keys `text`, `score`, `title`, `url`). -/
structure RChunk where
  text : String
  score : Rat
  title : String
  url : String
deriving DecidableEq, Repr

/-- An embedding vector (opaque to the query chain; it is only passed from
the embedder to the index). -/
abbrev Vec := List Rat

/-- `query_rag.py` lines 84–96: the loop over `results["matches"]` that maps
each match into the chunk dict, preserving order. -/
def retrieve_relevant_chunks (indexMatches : List IndexMatch) : List RChunk :=
  indexMatches.map fun m =>
    { text := m.metadata.text
      score := m.score
      title := m.metadata.title
      url := m.metadata.url }

/-- `query_rag.py` lines 73–96, the full `retrieve_relevant_chunks` method:
embed the query (external call, may fail), issue one top-k index query
(external call, may fail), then map the matches. -/
def retrieve_outcome {ε : Type} (embed : String → Except ε Vec)
    (indexQuery : Vec → Nat → Except ε (List IndexMatch))
    (query : String) (top_k : Nat) : Except ε (List RChunk) := do
  let v ← embed query
  let ms ← indexQuery v top_k
  pure (retrieve_relevant_chunks ms)

/-- `query_rag.py` lines 98–104 (`format_context`): blocks
`f"[source {i}] {title}\n{text}"` with `enumerate(chunks, 1)`,
joined by `"\n\n"`. -/
def format_context (chunks : List RChunk) : String :=
  String.intercalate "\n\n"
    ((List.enumFrom 1 chunks).map fun p =>
      "[source " ++ Nat.repr p.1 ++ "] " ++ p.2.title ++ "\n" ++ p.2.text)

/-- Python's slice `xs[-n:]` for a natural `n`: for `n = 0` the slice is
`xs[0:]`, i.e. the whole list; otherwise the last `min n (length xs)`
elements. -/
def pyLastSlice {α : Type} (n : Nat) (xs : List α) : List α :=
  if n = 0 then xs else xs.drop (xs.length - n)

/-- The rendering `f"User: {user_text}\nAssistant: {assistant_text}"` of one
turn inside `format_history`. -/
def renderTurn (t : Turn) : String :=
  "User: " ++ t.user ++ "\nAssistant: " ++ t.assistant

/-- `query_rag.py` lines 106–123 (`format_history`): `if not history` (i.e.
`None` or the empty list) returns the sentinel; otherwise the slice
`history[-self.history_max_turns:]` is rendered turn by turn and joined by
`"\n\n"`. `history_max_turns` (`self.history_max_turns`, set to 6 in
`__init__`) is taken as a parameter. -/
def format_history (history_max_turns : Nat) (history : Option (List Turn)) :
    String :=
  match history with
  | none => "(no prior conversation)"
  | some h =>
      if h.isEmpty then "(no prior conversation)"
      else
        String.intercalate "\n\n"
          ((pyLastSlice history_max_turns h).map renderTurn)

/-- `query_rag.py` line 71: `self.history_max_turns = 6`. -/
def history_max_turns : Nat := 6

/-- `query_rag.py` line 136: the fixed fallback answer used when retrieval
returns no chunks. -/
def fallback_answer : String :=
  "i couldn\x27t find any relevant information in the elden ring wiki for this question."

/-- `query_rag.py` lines 47–68: the prompt template with its three slots
`history`, `context`, `question`. -/
def prompt_template (context history question : String) : String :=
  "you are an expert on elden ring lore. use the following context from the elden ring wiki to answer the user\x27s question accurately and helpfully.\n\nconversation history (most recent last):\n"
  ++ history
  ++ "\n\ncontext from elden ring wiki:\n"
  ++ context
  ++ "\n\nquestion: "
  ++ question
  ++ "\n\ninstructions:\n- answer based primarily on the provided context and relevant parts of the conversation history\n- be accurate and detailed but concise\n- if the context doesn\x27t contain enough information, say so clearly\n- include relevant quotes from the context when helpful\n- when the user asks a follow-up question, use the conversation history to resolve references\n- maintain an engaging, helpful tone\n\nanswer:"

/-- `query_rag.py` lines 125–168 (`answer_question`): retrieve with the
default `top_k = 5`; on zero chunks short-circuit with the fallback answer;
otherwise format context and history, invoke the chain
(prompt template → llm → string parser) and append the turn.

The first component is the function's outcome (`return` value or raised
exception); the second is the caller-visible binding of the history list
after the call: unchanged on an exception (the `append` on line 139/166 was
never reached), the appended list on success. -/
def answer_question {ε : Type} (embed : String → Except ε Vec)
    (indexQuery : Vec → Nat → Except ε (List IndexMatch))
    (llm : String → Except ε String)
    (question : String) (history : Option (List Turn)) :
    Except ε (String × List RChunk × List Turn) × Option (List Turn) :=
  match retrieve_outcome embed indexQuery question 5 with
  | .error e => (.error e, history)
  | .ok chunks =>
    if chunks.isEmpty then
      let h := history.getD [] ++ [⟨question, fallback_answer⟩]
      (.ok (fallback_answer, chunks, h), some h)
    else
      let context := format_context chunks
      let history_str := format_history history_max_turns history
      match llm (prompt_template context history_str question) with
      | .error e => (.error e, history)
      | .ok answer =>
        let h := history.getD [] ++ [⟨question, answer⟩]
        (.ok (answer, chunks, h), some h)

/-- One evidence block, in the form actually produced by `format_context`
(lowercase "source"). -/
def evidenceBlock (i : Nat) (c : RChunk) : String :=
  "[source " ++ Nat.repr i ++ "] " ++ c.title ++ "\n" ++ c.text

/-- Spec-side rendering of the evidence blocks (spec §4.3 `formatEvidence`,
with the block label as the code actually writes it): one block per chunk,
in order, indices counting from 1. -/
def evidenceBlocksFrom : Nat → List RChunk → List String
  | _, [] => []
  | i, c :: cs => evidenceBlock i c :: evidenceBlocksFrom (i + 1) cs

/-- Spec-side `formatEvidence`: blocks joined by a blank line. -/
def formatEvidenceSpec (chunks : List RChunk) : String :=
  String.intercalate "\n\n" (evidenceBlocksFrom 1 chunks)

/-- Spec-side sliding window (spec §4.3 `formatHistory`): the last `n`
entries of `h`, oldest of that window first, most recent last. -/
def lastTurns (n : Nat) (h : List Turn) : List Turn :=
  (h.reverse.take n).reverse

/-- Spec-side `formatHistory` for a non-empty history: the windowed turns
rendered as "User: ...\nAssistant: ..." joined by a blank line. -/
def formatHistorySpec (n : Nat) (h : List Turn) : String :=
  String.intercalate "\n\n" ((lastTurns n h).map renderTurn)

lemma enumFrom_map_evidence (l : List RChunk) : ∀ i : Nat,
    ((List.enumFrom i l).map fun p =>
        "[source " ++ Nat.repr p.1 ++ "] " ++ p.2.title ++ "\n" ++ p.2.text)
      = evidenceBlocksFrom i l := by
  induction l with
  | nil => intro i; rfl
  | cons c cs ih =>
      intro i
      simp only [List.enumFrom_cons, List.map_cons, ih, evidenceBlocksFrom,
        evidenceBlock]

lemma lastTurns_eq_drop (n : Nat) (h : List Turn) :
    lastTurns n h = h.drop (h.length - n) := by
  simp [lastTurns, List.take_reverse]

/-- Claim C5 (corrected claim, counterexample): on the single chunk
`{text: "X is a king.", title: "X"}` of the spec scenario, `format_context`
produces `"[source 1] X\nX is a king."` with a lowercase "source", not the
`"[Source 1] X\nX is a king."` block the claim states. -/
theorem format_context_claim_counterexample :
    format_context [⟨"X is a king.", 9 / 10, "X", "u"⟩]
        = "[source 1] X\nX is a king." ∧
    format_context [⟨"X is a king.", 9 / 10, "X", "u"⟩]
        ≠ "[Source 1] X\nX is a king." := by
  refine ⟨rfl, ?_⟩
  decide

/-- Claim C5 (amended): `format_context` concatenates, in retrieval order,
blocks of the exact form "[source i] <title>\n<text>" (lowercase "source",
`i` counting from 1) joined by a blank line; empty input yields the empty
string; the single spec-scenario chunk yields exactly
"[source 1] X\nX is a king.". -/
theorem format_context_blocks (chunks : List RChunk) :
    format_context chunks = formatEvidenceSpec chunks ∧
    format_context [] = "" ∧
    format_context [⟨"X is a king.", 9 / 10, "X", "u"⟩]
      = "[source 1] X\nX is a king." := by
  refine ⟨?_, rfl, rfl⟩
  simp [format_context, formatEvidenceSpec, enumFrom_map_evidence]

/-- Claim C6 (corrected claim, counterexample): the sentinel the code
returns is "(no prior conversation)" with parentheses, not
"no prior conversation"; and with a window of 0 turns on a one-turn history,
`format_history` renders the turn (Python's `history[-0:]` is the whole
list) instead of returning the sentinel. -/
theorem format_history_claim_counterexample :
    format_history 6 none = "(no prior conversation)" ∧
    "(no prior conversation)" ≠ "no prior conversation" ∧
    format_history 0 (some [⟨"q", "a"⟩]) = "User: q\nAssistant: a" ∧
    format_history 0 (some [⟨"q", "a"⟩]) ≠ "no prior conversation" := by
  refine ⟨rfl, by decide, rfl, by decide⟩

/-- Claim C6 (amended): on empty or absent history `format_history` returns
the fixed sentinel "(no prior conversation)" (never the empty string), and
with a window of 0 turns it renders the entire history — the same output as
a window equal to the history's length — because the Python slice
`history[-0:]` is the whole list. -/
theorem format_history_sentinel (n : Nat) (h : List Turn) :
    format_history n none = "(no prior conversation)" ∧
    format_history n (some []) = "(no prior conversation)" ∧
    format_history n none ≠ "" ∧
    format_history 0 (some h) = format_history h.length (some h) := by
  have h1 : format_history n none = "(no prior conversation)" := rfl
  refine ⟨h1, rfl, by rw [h1]; decide, ?_⟩
  cases h with
  | nil => rfl
  | cons t ts =>
      simp [format_history, pyLastSlice]

/-- Claim C7: for every non-empty history and window `n > 0`,
`format_history` renders exactly the last `n` turns (all turns if fewer),
oldest of that window first and most recent last, each as
"User: <question>\nAssistant: <answer>", joined by a blank line, without
re-sorting — i.e. it agrees with the spec-side sliding-window rendering. -/
theorem format_history_window (h : List Turn) (n : Nat)
    (hne : h ≠ []) (hn : 0 < n) :
    format_history n (some h) = formatHistorySpec n h ∧
    lastTurns n h = h.drop (h.length - n) ∧
    (lastTurns n h).length = min n h.length := by
  have hlen : (lastTurns n h).length = min n h.length := by
    rw [lastTurns_eq_drop, List.length_drop]
    omega
  refine ⟨?_, lastTurns_eq_drop n h, hlen⟩
  have hemp : h.isEmpty = false := by
    cases h with
    | nil => exact absurd rfl hne
    | cons t ts => rfl
  have hns : n ≠ 0 := Nat.pos_iff_ne_zero.mp hn
  simp [format_history, formatHistorySpec, hemp, pyLastSlice, hns,
    lastTurns_eq_drop]

/-- Claim C7 witness: the window and rendering at a concrete history. -/
theorem format_history_window_witness :
    ([⟨"q", "a"⟩] : List Turn) ≠ [] ∧ 0 < 1 ∧
    format_history 1 (some [⟨"q", "a"⟩]) = formatHistorySpec 1 [⟨"q", "a"⟩] :=
  ⟨by decide, by decide,
    (format_history_window [⟨"q", "a"⟩] 1 (by decide) (by decide)).1⟩

/-- A stub embedder that succeeds (used to instantiate theorems about the
orchestrator at concrete collaborators). -/
def stubEmbedOk : String → Except Unit Vec := fun _ => .ok []

/-- A stub embedder that fails. -/
def stubEmbedFail : String → Except Unit Vec := fun _ => .error ()

/-- A stub index returning zero matches. -/
def stubIndexEmpty : Vec → Nat → Except Unit (List IndexMatch) :=
  fun _ _ => .ok []

/-- A stub index returning one match. -/
def stubIndexOne : Vec → Nat → Except Unit (List IndexMatch) :=
  fun _ _ => .ok [⟨1, ⟨"t", "T", "u"⟩⟩]

/-- A stub language model that succeeds. -/
def stubLlmOk : String → Except Unit String := fun _ => .ok "stub answer"

/-- A stub language model that fails. -/
def stubLlmErr : String → Except Unit String := fun _ => .error ()

/-- Claim C4: `retrieve_relevant_chunks` maps the index's matches one-to-one
and in order; granted the index contract (at most `topK` matches, sorted by
score descending), the returned chunks number at most `topK`, are sorted by
score descending, and each chunk's score, text, title and url are taken
unmodified from the corresponding match. -/
theorem retrieve_preserves_matches (indexMatches : List IndexMatch)
    (topK : Nat) (hlen : indexMatches.length ≤ topK)
    (hsorted : List.Chain' (fun a b => b.score ≤ a.score) indexMatches) :
    (retrieve_relevant_chunks indexMatches).length ≤ topK ∧
    List.Chain' (fun a b => b.score ≤ a.score)
      (retrieve_relevant_chunks indexMatches) ∧
    (retrieve_relevant_chunks indexMatches).map RChunk.score
      = indexMatches.map IndexMatch.score ∧
    (retrieve_relevant_chunks indexMatches).map RChunk.text
      = indexMatches.map (fun m => m.metadata.text) ∧
    (retrieve_relevant_chunks indexMatches).map RChunk.title
      = indexMatches.map (fun m => m.metadata.title) ∧
    (retrieve_relevant_chunks indexMatches).map RChunk.url
      = indexMatches.map (fun m => m.metadata.url) := by
  refine ⟨?_, ?_, ?_, ?_, ?_, ?_⟩
  · simpa [retrieve_relevant_chunks] using hlen
  · simpa [retrieve_relevant_chunks, List.chain'_map] using hsorted
  all_goals simp [retrieve_relevant_chunks, List.map_map, Function.comp]

/-- Claim C4 witness: the mapping at a concrete two-match response. -/
theorem retrieve_preserves_matches_witness :
    ([⟨1, ⟨"t1", "T1", "u1"⟩⟩, ⟨0, ⟨"t2", "T2", "u2"⟩⟩] :
        List IndexMatch).length ≤ 5 ∧
    List.Chain' (fun a b => b.score ≤ a.score)
      ([⟨1, ⟨"t1", "T1", "u1"⟩⟩, ⟨0, ⟨"t2", "T2", "u2"⟩⟩] :
        List IndexMatch) ∧
    (retrieve_relevant_chunks
        [⟨1, ⟨"t1", "T1", "u1"⟩⟩, ⟨0, ⟨"t2", "T2", "u2"⟩⟩]).map RChunk.score
      = ([⟨1, ⟨"t1", "T1", "u1"⟩⟩, ⟨0, ⟨"t2", "T2", "u2"⟩⟩] :
          List IndexMatch).map IndexMatch.score :=
  ⟨by decide, by norm_num [List.chain'_cons],
    (retrieve_preserves_matches
      [⟨1, ⟨"t1", "T1", "u1"⟩⟩, ⟨0, ⟨"t2", "T2", "u2"⟩⟩] 5
      (by decide) (by norm_num [List.chain'_cons])).2.2.1⟩

/-- Claim C8: when the embedder succeeds and the index responds with zero
matches (in particular over an empty corpus), the retriever returns the
empty sequence as a normal value — no exception. -/
theorem retrieve_empty_ok {ε : Type} (embed : String → Except ε Vec)
    (indexQuery : Vec → Nat → Except ε (List IndexMatch))
    (query : String) (top_k : Nat) (v : Vec)
    (hemb : embed query = .ok v) (hidx : indexQuery v top_k = .ok []) :
    retrieve_outcome embed indexQuery query top_k = .ok [] := by
  simp only [retrieve_outcome, hemb, hidx, bind, Except.bind, pure,
    Except.pure, Except.map, Functor.map, retrieve_relevant_chunks,
    List.map_nil]

/-- Claim C8 witness: the empty-corpus stubs. -/
theorem retrieve_empty_ok_witness :
    stubEmbedOk "q" = .ok [] ∧ stubIndexEmpty [] 5 = .ok [] ∧
    retrieve_outcome stubEmbedOk stubIndexEmpty "q" 5 = .ok [] :=
  ⟨rfl, rfl, retrieve_empty_ok stubEmbedOk stubIndexEmpty "q" 5 [] rfl rfl⟩

/-- Claim C1: when retrieval returns zero chunks, `answer_question`
short-circuits: the result holds the fixed fallback answer (the code's
constant "i couldn't find any relevant information in the elden ring wiki
for this question."), exactly one turn `{question, fallback}` is appended to
the history, and the language model is never invoked (the outcome is the
same for any two language models). -/
theorem ask_empty_short_circuit {ε : Type} (embed : String → Except ε Vec)
    (indexQuery : Vec → Nat → Except ε (List IndexMatch))
    (llm1 llm2 : String → Except ε String)
    (question : String) (history : Option (List Turn))
    (hret : retrieve_outcome embed indexQuery question 5 = .ok []) :
    answer_question embed indexQuery llm1 question history =
      (.ok (fallback_answer, [],
          history.getD [] ++ [⟨question, fallback_answer⟩]),
        some (history.getD [] ++ [⟨question, fallback_answer⟩])) ∧
    answer_question embed indexQuery llm1 question history =
      answer_question embed indexQuery llm2 question history := by
  have h1 : ∀ llm : String → Except ε String,
      answer_question embed indexQuery llm question history =
        (.ok (fallback_answer, [],
            history.getD [] ++ [⟨question, fallback_answer⟩]),
          some (history.getD [] ++ [⟨question, fallback_answer⟩])) := by
    intro llm
    simp [answer_question, hret]
  exact ⟨h1 llm1, (h1 llm1).trans (h1 llm2).symm⟩

/-- Claim C1 witness: concrete stubs with an empty index response; the two
language models disagree everywhere, yet the outcome coincides. -/
theorem ask_empty_short_circuit_witness :
    retrieve_outcome stubEmbedOk stubIndexEmpty "q" 5 = .ok [] ∧
    answer_question stubEmbedOk stubIndexEmpty stubLlmOk "q" (some []) =
      (.ok (fallback_answer, [], [⟨"q", fallback_answer⟩]),
        some [⟨"q", fallback_answer⟩]) ∧
    answer_question stubEmbedOk stubIndexEmpty stubLlmOk "q" (some []) =
      answer_question stubEmbedOk stubIndexEmpty stubLlmErr "q" (some []) :=
  ⟨rfl,
    (ask_empty_short_circuit stubEmbedOk stubIndexEmpty stubLlmOk stubLlmErr
      "q" (some []) rfl).1,
    (ask_empty_short_circuit stubEmbedOk stubIndexEmpty stubLlmOk stubLlmErr
      "q" (some []) rfl).2⟩

/-- Claim C2: a failed `answer_question` call is atomic — if the retrieval
step fails, or retrieval yields chunks but the generation step fails, the
call surfaces that very error unmodified and the caller's history is left
exactly as it was (no partial turn is appended). -/
theorem ask_failure_atomicity {ε : Type} (embed : String → Except ε Vec)
    (indexQuery : Vec → Nat → Except ε (List IndexMatch))
    (llm : String → Except ε String)
    (question : String) (history : Option (List Turn)) (e : ε) :
    (retrieve_outcome embed indexQuery question 5 = .error e →
      answer_question embed indexQuery llm question history
        = (.error e, history)) ∧
    (∀ chunks : List RChunk,
      retrieve_outcome embed indexQuery question 5 = .ok chunks →
      chunks ≠ [] →
      llm (prompt_template (format_context chunks)
            (format_history history_max_turns history) question) = .error e →
      answer_question embed indexQuery llm question history
        = (.error e, history)) := by
  constructor
  · intro hret
    simp [answer_question, hret]
  · intro chunks hret hne hllm
    have hemp : chunks.isEmpty = false := by
      cases chunks with
      | nil => exact absurd rfl hne
      | cons c cs => rfl
    simp [answer_question, hret, hemp, hllm]

/-- Claim C2 witness: a failing embedder and a failing language model, each
leaving the one-turn history untouched and surfacing the error. -/
theorem ask_failure_atomicity_witness :
    answer_question stubEmbedFail stubIndexEmpty stubLlmOk "q"
      (some [⟨"p", "r"⟩]) = (.error (), some [⟨"p", "r"⟩]) ∧
    answer_question stubEmbedOk stubIndexOne stubLlmErr "q"
      (some [⟨"p", "r"⟩]) = (.error (), some [⟨"p", "r"⟩]) :=
  ⟨(ask_failure_atomicity stubEmbedFail stubIndexEmpty stubLlmOk "q"
      (some [⟨"p", "r"⟩]) ()).1 rfl,
    (ask_failure_atomicity stubEmbedOk stubIndexOne stubLlmErr "q"
      (some [⟨"p", "r"⟩]) ()).2 [⟨"t", 1, "T", "u"⟩] rfl (by decide) rfl⟩

/-- Claim C3: every successful `answer_question` call returns the input
history with exactly one turn appended at the end; the appended turn's
question field is the literal question text, every pre-existing turn is
preserved unchanged in place, and the caller's history binding after the
call is exactly the returned history. -/
theorem ask_appends_single_turn {ε : Type} (embed : String → Except ε Vec)
    (indexQuery : Vec → Nat → Except ε (List IndexMatch))
    (llm : String → Except ε String)
    (question : String) (history : Option (List Turn))
    (a : String) (chunks : List RChunk) (h2 : List Turn)
    (hok : (answer_question embed indexQuery llm question history).1
      = .ok (a, chunks, h2)) :
    h2 = history.getD [] ++ [⟨question, a⟩] ∧
    (answer_question embed indexQuery llm question history).2 = some h2 ∧
    h2.length = (history.getD []).length + 1 ∧
    h2.take (history.getD []).length = history.getD [] ∧
    h2.getLast? = some ⟨question, a⟩ := by
  have hmain : h2 = history.getD [] ++ [⟨question, a⟩] ∧
      (answer_question embed indexQuery llm question history).2 = some h2 := by
    rcases hr : retrieve_outcome embed indexQuery question 5 with e | chunks0
    · simp [answer_question, hr] at hok
    · cases hemp : chunks0.isEmpty with
      | true =>
          have := hok
          simp [answer_question, hr, hemp] at this
          obtain ⟨ha, hc, hh⟩ := this
          subst ha
          subst hh
          simp [answer_question, hr, hemp]
      | false =>
          rcases hl : llm (prompt_template (format_context chunks0)
              (format_history history_max_turns history) question)
            with e | ans
          · simp [answer_question, hr, hemp, hl] at hok
          · have := hok
            simp [answer_question, hr, hemp, hl] at this
            obtain ⟨ha, hc, hh⟩ := this
            subst ha
            subst hh
            simp [answer_question, hr, hemp, hl]
  obtain ⟨hm, hcaller⟩ := hmain
  refine ⟨hm, hcaller, ?_, ?_, ?_⟩
  · simp [hm]
  · simp [hm]
  · simp [hm]

/-- Claim C3 witness: a successful call on a one-turn history. -/
theorem ask_appends_single_turn_witness :
    (answer_question stubEmbedOk stubIndexOne stubLlmOk "q"
        (some [⟨"p", "r"⟩])).1
      = .ok ("stub answer", [⟨"t", 1, "T", "u"⟩],
          [⟨"p", "r"⟩, ⟨"q", "stub answer"⟩]) ∧
    ([⟨"p", "r"⟩, ⟨"q", "stub answer"⟩] : List Turn)
      = (some [Turn.mk "p" "r"]).getD [] ++ [⟨"q", "stub answer"⟩] :=
  ⟨rfl,
    (ask_appends_single_turn stubEmbedOk stubIndexOne stubLlmOk "q"
      (some [⟨"p", "r"⟩]) "stub answer" [⟨"t", 1, "T", "u"⟩]
      [⟨"p", "r"⟩, ⟨"q", "stub answer"⟩] rfl).1⟩

/-- `chunk_data.py` line 23: `chunk_size=1000`. -/
def chunk_size : Nat := 1000

/-- `chunk_data.py` line 24: `chunk_overlap=200`. -/
def chunk_overlap : Nat := 200

/-- `chunk_data.py` line 26: the separator list, coarsest to finest. -/
def separator_list : List String := ["\n\n", "\n", ". ", " ", ""]

/-- Modelled from the spec: step 1–2 of the §4.1 chunking algorithm. The
splitter itself (`RecursiveCharacterTextSplitter.split_text`) lives in the
external langchain library, not in this repository; `chunk_data.py` only
configures and calls it. Split the text into atomic pieces on the first
separator; any atom still longer than `chunkSize` is recursively split with
the next finer separator (the empty separator falls back to single
characters, so no atom can stay oversized past it). -/
def splitAtoms (separators : List String) (chunkSize : Nat) (s : String) :
    List String :=
  match separators with
  | [] => [s]
  | sep :: rest =>
      let pieces :=
        if sep = "" then s.data.map (fun c => String.mk [c])
        else s.splitOn sep
      pieces.flatMap fun p =>
        if p.length ≤ chunkSize then [p] else splitAtoms rest chunkSize p
termination_by separators.length
decreasing_by simp

/-- Modelled from the spec: the walk-back of §4.1 step 4, on the reversed
window — keep trailing atoms until at least `overlap` characters of trailing
content are included. -/
def overlapTailRev (overlap : Nat) : List String → List String
  | [] => []
  | a :: rest =>
      if overlap = 0 then []
      else if a.length ≥ overlap then [a]
      else a :: overlapTailRev (overlap - a.length) rest

/-- Modelled from the spec: the atoms of the emitted window that are carried
into the next window so that up to `overlap` characters of context are
shared. -/
def overlapCarry (overlap : Nat) (window : List String) : List String :=
  (overlapTailRev overlap window.reverse).reverse

/-- Modelled from the spec: §4.1 step 3 re-inserts the separator between the
atoms packed into one window. -/
def joinWindow (sep : String) (parts : List String) : String :=
  String.intercalate sep parts

/-- Modelled from the spec: §4.1 steps 3–5 — greedily pack consecutive atoms
into windows of at most `chunkSize` characters (an atom that alone exceeds
`chunkSize` is emitted verbatim as its own window), starting each new window
with the `overlap`-character carry of its predecessor. The separator
re-inserted when joining is the coarsest one; spec §9 records the exact
separator accounting of the walk-back as an implementation choice. -/
def packWindows (chunkSize overlap : Nat) (sep : String) :
    List String → List String → List String
  | window, [] => if window.isEmpty then [] else [joinWindow sep window]
  | window, a :: rest =>
      if window.isEmpty then packWindows chunkSize overlap sep [a] rest
      else if (joinWindow sep (window ++ [a])).length ≤ chunkSize then
        packWindows chunkSize overlap sep (window ++ [a]) rest
      else
        joinWindow sep window ::
          packWindows chunkSize overlap sep (overlapCarry overlap window ++ [a])
            rest

/-- Modelled from the spec: the §4.1 contract
`split(documentText, chunkSize, overlap) -> sequence of chunk texts`,
with the separator list fixed by `chunk_data.py` line 26. -/
def split_text (chunkSize overlap : Nat) (documentText : String) :
    List String :=
  packWindows chunkSize overlap "\n\n" []
    (splitAtoms separator_list chunkSize documentText)

/-- Claim C9: chunking is deterministic — it is a pure function of the
document text and the parameters, so for `0 ≤ overlap < chunkSize` two runs
on identical input yield byte-identical chunk sequences in the same order. -/
theorem chunking_deterministic (documentText : String)
    (chunkSize overlap : Nat) (h : overlap < chunkSize) :
    split_text chunkSize overlap documentText
      = split_text chunkSize overlap documentText := rfl

/-- Claim C9 witness: two runs on the golden-test document of spec §8. -/
theorem chunking_deterministic_witness :
    2 < 5 ∧
    split_text 5 2 "A. B. C." = split_text 5 2 "A. B. C." :=
  ⟨by decide, chunking_deterministic "A. B. C." 5 2 (by decide)⟩

/-- The metadata attached by `create_documents` (`chunk_data.py` lines
42–49) to each page document. -/
structure DocMeta where
  url : String
  title : String
  source : String
deriving DecidableEq, Repr

/-- A LangChain `Document` as built by `create_documents`: the page text and
its metadata. -/
structure Document where
  page_content : String
  metadata : DocMeta
deriving DecidableEq, Repr

/-- The chunk-record metadata written by `split_into_chunks`
(`chunk_data.py` lines 70–74): the document metadata plus `chunk_index` and
`total_chunks`. -/
structure ChunkMeta where
  url : String
  title : String
  source : String
  chunk_index : Nat
  total_chunks : Nat
deriving DecidableEq, Repr

/-- One chunk record of `split_into_chunks` (`chunk_data.py` lines 67–75). -/
structure ChunkRecord where
  id : String
  text : String
  metadata : ChunkMeta
deriving DecidableEq, Repr

/-- `chunk_data.py` lines 66–77, the inner loop of `split_into_chunks` for
one document: `for i, chunk_text in enumerate(chunks)` builds one record per
chunk, with `id = f"chunk_{chunk_id}"` from the global counter (here
`chunk_id + i`), `chunk_index = i` and `total_chunks = len(chunks)`. -/
def chunkRecordsOfDoc (chunk_id : Nat) (doc : Document)
    (chunks : List String) : List ChunkRecord :=
  chunks.enum.map fun p =>
    { id := "chunk_" ++ Nat.repr (chunk_id + p.1)
      text := p.2
      metadata :=
        { url := doc.metadata.url
          title := doc.metadata.title
          source := doc.metadata.source
          chunk_index := p.1
          total_chunks := chunks.length } }

/-- `chunk_data.py` lines 55–80 (`split_into_chunks`): fold over the
documents, splitting each with the configured text splitter (taken as a
parameter, see `split_text`), accumulating the records and the global
`chunk_id` counter. -/
def split_into_chunks (splitter : String → List String)
    (documents : List Document) : List ChunkRecord :=
  (documents.foldl
    (fun acc doc =>
      let chunks := splitter doc.page_content
      (acc.1 ++ chunkRecordsOfDoc acc.2 doc chunks, acc.2 + chunks.length))
    (([] : List ChunkRecord), 0)).1

/-- Structural-recursion reformulation of the fold in `split_into_chunks`,
used to reason by induction. -/
def chunksGo (splitter : String → List String) :
    Nat → List Document → List ChunkRecord
  | _, [] => []
  | n, d :: ds =>
      chunkRecordsOfDoc n d (splitter d.page_content)
        ++ chunksGo splitter (n + (splitter d.page_content).length) ds

lemma split_into_chunks_foldl (splitter : String → List String) :
    ∀ (docs : List Document) (acc : List ChunkRecord) (n : Nat),
      docs.foldl
        (fun acc doc =>
          let chunks := splitter doc.page_content
          (acc.1 ++ chunkRecordsOfDoc acc.2 doc chunks,
            acc.2 + chunks.length))
        (acc, n)
      = (acc ++ chunksGo splitter n docs,
          n + (docs.map fun d => (splitter d.page_content).length).sum) := by
  intro docs
  induction docs with
  | nil => intro acc n; simp [chunksGo]
  | cons d ds ih =>
      intro acc n
      simp only [List.foldl_cons, ih, chunksGo, List.append_assoc,
        List.map_cons, List.sum_cons]
      rw [Nat.add_assoc]

lemma split_into_chunks_eq_go (splitter : String → List String)
    (documents : List Document) :
    split_into_chunks splitter documents = chunksGo splitter 0 documents := by
  simp [split_into_chunks, split_into_chunks_foldl]

lemma map_enumFrom_fst_f {α β : Type} (f : Nat → β) (cs : List α) :
    ∀ i, ((List.enumFrom i cs).map fun p => f p.1)
      = (List.range' i cs.length).map f := by
  induction cs with
  | nil => intro i; rfl
  | cons c cs ih =>
      intro i
      simp only [List.enumFrom_cons, List.map_cons, List.length_cons,
        List.range'_succ, ih]

lemma chunkRecordsOfDoc_chunk_index (n : Nat) (d : Document)
    (cs : List String) :
    (chunkRecordsOfDoc n d cs).map (fun r => r.metadata.chunk_index)
      = List.range cs.length := by
  have h : ((chunkRecordsOfDoc n d cs).map fun r => r.metadata.chunk_index)
      = ((List.enumFrom 0 cs).map fun p => p.1) := by
    simp [chunkRecordsOfDoc, List.enum, List.map_map, Function.comp_def]
  rw [h, map_enumFrom_fst_f (fun k => k) cs 0, List.range_eq_range',
    List.map_id']

lemma chunkRecordsOfDoc_total (n : Nat) (d : Document) (cs : List String) :
    (chunkRecordsOfDoc n d cs).map (fun r => r.metadata.total_chunks)
      = List.replicate cs.length cs.length := by
  simp [chunkRecordsOfDoc, List.enum, List.map_map, Function.comp_def,
    List.map_const', List.enumFrom_length]

lemma chunkRecordsOfDoc_id (n : Nat) (d : Document) (cs : List String) :
    (chunkRecordsOfDoc n d cs).map ChunkRecord.id
      = (List.range' n cs.length).map
          (fun k => "chunk_" ++ Nat.repr k) := by
  have h : ((chunkRecordsOfDoc n d cs).map ChunkRecord.id)
      = ((List.enumFrom 0 cs).map fun p =>
          "chunk_" ++ Nat.repr (n + p.1)) := by
    simp [chunkRecordsOfDoc, List.enum, List.map_map, Function.comp_def]
  rw [h, map_enumFrom_fst_f (fun k => "chunk_" ++ Nat.repr (n + k)) cs 0]
  simp [List.range'_eq_map_range, List.map_map, Function.comp]

/-- The decimal digit characters of `n`, most significant first — the list
`Nat.toDigitsCore` computes when given enough fuel. -/
def decDigits (n : Nat) : List Char :=
  if h : n < 10 then [Nat.digitChar n]
  else decDigits (n / 10) ++ [Nat.digitChar (n % 10)]
termination_by n
decreasing_by exact Nat.div_lt_self (by omega) (by omega)

lemma toDigitsCore_eq_decDigits :
    ∀ (fuel n : Nat) (acc : List Char), n < fuel →
      Nat.toDigitsCore 10 fuel n acc = decDigits n ++ acc := by
  intro fuel
  induction fuel with
  | zero => intro n acc h; omega
  | succ f ih =>
      intro n acc h
      by_cases h10 : n / 10 = 0
      · have hn : n < 10 := by omega
        rw [Nat.toDigitsCore]
        simp only [h10, if_true]
        rw [decDigits]
        simp [hn, Nat.mod_eq_of_lt hn]
      · have hge : 10 ≤ n := by omega
        have hdiv : n / 10 < n := Nat.div_lt_self (by omega) (by omega)
        rw [Nat.toDigitsCore]
        simp only [h10, if_false]
        rw [ih (n / 10) _ (by omega)]
        conv_rhs => rw [decDigits]
        simp [Nat.not_lt.mpr hge, List.append_assoc]

lemma toDigits_eq_decDigits (n : Nat) :
    Nat.toDigits 10 n = decDigits n := by
  have := toDigitsCore_eq_decDigits (n + 1) n [] (Nat.lt_succ_self n)
  simpa [Nat.toDigits] using this

/-- The numeric value of a decimal digit character. -/
def digitVal (c : Char) : Nat := c.toNat - 48

lemma digitVal_digitChar (d : Nat) (h : d < 10) :
    digitVal (Nat.digitChar d) = d := by
  interval_cases d <;> rfl

lemma foldl_decDigits (n : Nat) : ∀ a : Nat,
    (decDigits n).foldl (fun a c => a * 10 + digitVal c) a
      = a * 10 ^ (decDigits n).length + n := by
  induction n using Nat.strong_induction_on with
  | _ n ih =>
      intro a
      by_cases h : n < 10
      · rw [decDigits]
        simp [h, digitVal_digitChar n h]
      · have hdiv : n / 10 < n := Nat.div_lt_self (by omega) (by omega)
        rw [decDigits]
        simp only [h, dif_neg, not_false_iff, List.foldl_append,
          List.length_append, List.length_cons, List.length_nil,
          List.foldl_cons, List.foldl_nil]
        rw [ih (n / 10) hdiv a,
          digitVal_digitChar (n % 10) (Nat.mod_lt _ (by omega))]
        have hdm : n / 10 * 10 + n % 10 = n := by omega
        rw [Nat.add_mul, Nat.add_assoc, hdm, pow_succ, ← Nat.mul_assoc]

lemma decDigits_injective : Function.Injective decDigits := by
  intro m n h
  have hm := foldl_decDigits m 0
  have hn := foldl_decDigits n 0
  rw [h] at hm
  simp only [Nat.zero_mul, Nat.zero_add] at hm hn
  exact hm.symm.trans hn

lemma natRepr_injective : Function.Injective Nat.repr := by
  intro m n h
  apply decDigits_injective
  rw [← toDigits_eq_decDigits, ← toDigits_eq_decDigits]
  have h2 := congrArg String.data h
  simpa [Nat.repr, List.asString] using h2

lemma string_data_inj {s t : String} (h : s.data = t.data) : s = t :=
  congrArg String.mk h

/-- The chunk-id construction `f"chunk_{k}"` is injective in `k`. -/
lemma chunkId_injective :
    Function.Injective (fun k : Nat => "chunk_" ++ Nat.repr k) := by
  intro a b h
  apply natRepr_injective
  have h2 := congrArg String.data h
  rw [String.data_append, String.data_append] at h2
  exact string_data_inj (List.append_cancel_left h2)

lemma chunksGo_chunk_index (splitter : String → List String) :
    ∀ (docs : List Document) (n : Nat),
      (chunksGo splitter n docs).map (fun r => r.metadata.chunk_index)
        = (docs.map fun d =>
            List.range (splitter d.page_content).length).flatten := by
  intro docs
  induction docs with
  | nil => intro n; rfl
  | cons d ds ih =>
      intro n
      simp [chunksGo, chunkRecordsOfDoc_chunk_index, ih]

lemma chunksGo_total (splitter : String → List String) :
    ∀ (docs : List Document) (n : Nat),
      (chunksGo splitter n docs).map (fun r => r.metadata.total_chunks)
        = (docs.map fun d =>
            List.replicate (splitter d.page_content).length
              (splitter d.page_content).length).flatten := by
  intro docs
  induction docs with
  | nil => intro n; rfl
  | cons d ds ih =>
      intro n
      simp [chunksGo, chunkRecordsOfDoc_total, ih]

lemma chunksGo_id (splitter : String → List String) :
    ∀ (docs : List Document) (n : Nat),
      (chunksGo splitter n docs).map ChunkRecord.id
        = (List.range' n
            ((docs.map fun d => (splitter d.page_content).length).sum)).map
            (fun k => "chunk_" ++ Nat.repr k) := by
  intro docs
  induction docs with
  | nil => intro n; rfl
  | cons d ds ih =>
      intro n
      have happ := List.range'_append n (splitter d.page_content).length
        ((ds.map fun d => (splitter d.page_content).length).sum) 1
      simp only [Nat.one_mul] at happ
      simp only [chunksGo, List.map_append, chunkRecordsOfDoc_id, ih,
        List.map_cons, List.sum_cons]
      rw [← List.map_append, happ, Nat.add_comm
        ((ds.map fun d => (splitter d.page_content).length).sum)
        (splitter d.page_content).length]

/-- Claim C10: over any document list (and any splitter), the records built
by `split_into_chunks` carry, within each document, the sequential
`chunk_index` values `0, 1, 2, …` in emission order; every record of a
document carries that document's final chunk count as `total_chunks`; and
the record ids are `chunk_0, chunk_1, …` in order — pairwise distinct across
the whole indexing run. -/
theorem split_into_chunks_indexing (splitter : String → List String)
    (documents : List Document) :
    (split_into_chunks splitter documents).map
        (fun r => r.metadata.chunk_index)
      = (documents.map fun d =>
          List.range (splitter d.page_content).length).flatten ∧
    (split_into_chunks splitter documents).map
        (fun r => r.metadata.total_chunks)
      = (documents.map fun d =>
          List.replicate (splitter d.page_content).length
            (splitter d.page_content).length).flatten ∧
    (split_into_chunks splitter documents).map ChunkRecord.id
      = (List.range
          ((documents.map fun d => (splitter d.page_content).length).sum)).map
          (fun k => "chunk_" ++ Nat.repr k) ∧
    ((split_into_chunks splitter documents).map ChunkRecord.id).Nodup := by
  have hid : (split_into_chunks splitter documents).map ChunkRecord.id
      = (List.range
          ((documents.map fun d =>
            (splitter d.page_content).length).sum)).map
          (fun k => "chunk_" ++ Nat.repr k) := by
    rw [split_into_chunks_eq_go, chunksGo_id, List.range_eq_range']
  refine ⟨?_, ?_, hid, ?_⟩
  · rw [split_into_chunks_eq_go, chunksGo_chunk_index]
  · rw [split_into_chunks_eq_go, chunksGo_total]
  · rw [hid]
    exact (List.nodup_range _).map chunkId_injective

end EldenRing
